import Mathlib

/-!
Verification of the AURA multi-agent orchestration and retrieval core against
its natural-language specification.  The repository ships the frontend client
library (src/frontend/lib/utils.ts, src/frontend/lib/api.ts); those functions
are embedded directly.  The orchestration core (Router/Classifier, Retriever,
Aggregator, Orchestrator, Vector Memory Store) is described by the spec but its
implementation is not part of the checked-in sources, so it is modelled from
the spec and the claims are settled against that model.
-/

namespace Aura

/-! ## String helpers (substring containment, JS-style join) -/

/-- Does `pat` occur at the start of `l`?  Character-list version of a
JavaScript `startsWith` check, used to build substring search. -/
def startsAt : List Char → List Char → Bool
  | [], _ => true
  | _ :: _, [] => false
  | p :: ps, c :: cs => p == c && startsAt ps cs

/-- Does `pat` occur contiguously anywhere inside `l`?  Models JavaScript
`String.prototype.includes` on the underlying character lists. -/
def hasSub : List Char → List Char → Bool
  | [], pat => startsAt pat []
  | c :: cs, pat => startsAt pat (c :: cs) || hasSub cs pat

/-- `SubstringOf pat s`: `pat` occurs contiguously inside `s`. -/
def SubstringOf (pat s : String) : Prop :=
  ∃ l r, l ++ pat.data ++ r = s.data

/-- JS `s.includes(pat)`. -/
def strIncludes (s pat : String) : Bool :=
  hasSub s.data pat.data

/-- JS `Array.prototype.join` / separator-interspersed concatenation. -/
def joinSep (sep : String) : List String → String
  | [] => ""
  | [x] => x
  | x :: y :: ys => x ++ sep ++ joinSep sep (y :: ys)

/-! ## src/frontend/lib/utils.ts -/

/-- The fields of a browser `File` object that `validateFile` reads:
`file.size` (bytes) and `file.type` (MIME string). -/
structure FileData where
  size : ℕ
  type : String
deriving DecidableEq

/-- Result shape of `validateFile`: `{ valid: boolean; error?: string }`. -/
structure ValidationResult where
  valid : Bool
  error : Option String := none
deriving DecidableEq

/-- The size-limit error message built by `validateFile`. -/
def sizeErrorMsg (maxSizeMB : ℕ) : String :=
  "File size must be less than " ++ toString maxSizeMB ++ "MB"

/-- Separator used by `allowedTypes.join(', ')` in `validateFile`. -/
def commaSep : String := ", "

/-- The type error message built by `validateFile`. -/
def typeErrorMsg (allowedTypes : List String) : String :=
  "File type must be one of: " ++ joinSep commaSep allowedTypes

/-- Embedding of `validateFile` from src/frontend/lib/utils.ts: reject when
`file.size > maxSizeMB * 1024 * 1024`; otherwise, when `allowedTypes` is
non-empty, reject unless some allowed type occurs inside `file.type`. -/
def validateFile (file : FileData) (maxSizeMB : ℕ := 50)
    (allowedTypes : List String := []) : ValidationResult :=
  let maxBytes := maxSizeMB * 1024 * 1024
  if file.size > maxBytes then
    { valid := false, error := some (sizeErrorMsg maxSizeMB) }
  else if 0 < allowedTypes.length then
    if allowedTypes.any (fun t => strIncludes file.type t) then
      { valid := true }
    else
      { valid := false, error := some (typeErrorMsg allowedTypes) }
  else
    { valid := true }

/-- JS `Math.round` on an exact rational: floor of `q + 1/2`. -/
def jsRound (q : ℚ) : ℤ :=
  ⌊q + 1 / 2⌋

/-- How JavaScript prints the number `n / 100` (the value produced by
`Math.round(x * 100) / 100` in `formatFileSize`) for nonnegative `n`:
an integer prints with no point, trailing zeros of the fraction drop. -/
def decimal2String (n : ℤ) : String :=
  let whole := n / 100
  let frac := n % 100
  if frac = 0 then toString whole
  else if frac % 10 = 0 then toString whole ++ "." ++ toString (frac / 10)
  else if frac < 10 then toString whole ++ ".0" ++ toString frac
  else toString whole ++ "." ++ toString frac

/-- The unit array of `formatFileSize`. -/
def sizeUnits : List String := [ "Bytes", "KB", "MB", "GB" ]

/-- What JS string indexing yields past the end of the unit array. -/
def undefinedStr : String := "undefined"

/-- The space between number and unit in `formatFileSize`. -/
def unitSpace : String := " "

/-- Embedding of `formatFileSize` from src/frontend/lib/utils.ts.
`Math.floor(Math.log(bytes) / Math.log(1024))` is the base-1024 logarithm
floor, i.e. `Nat.log 1024 bytes`; `sizes[i]` past the end of the array is
`undefined`, modelled by `undefinedStr`. -/
def formatFileSize (bytes : ℕ) : String :=
  if bytes = 0 then "0 Bytes"
  else
    let i := Nat.log 1024 bytes
    let value := jsRound ((bytes : ℚ) / (1024 : ℚ) ^ i * 100)
    decimal2String value ++ unitSpace ++ sizeUnits.getD i undefinedStr

/-! ## src/frontend/lib/api.ts and the request types -/

/-- `QueryRequest` from the frontend type declarations: `use_rag` and
`history` are optional fields. -/
structure QueryRequest where
  query : String
  use_rag : Option Bool := none
  history : Option (List (String × String)) := none

/-- A value appended to a `FormData`: either a string or a file. -/
inductive FormValue where
  | str : String → FormValue
  | fileVal : FileData → FormValue
deriving DecidableEq

/-- JS `Boolean.prototype.toString`. -/
def jsBoolString (b : Bool) : String :=
  if b then "true" else "false"

/-- Embedding of `processMultiModal` from src/frontend/lib/api.ts as the
`FormData` entry list it builds: `query`, then `use_rag` (the `useRag`
argument, default `true`, stringified), then `file` when one is given. -/
def processMultiModal (query : String) (file : Option FileData)
    (useRag : Bool := true) : List (String × FormValue) :=
  [ ( "query", FormValue.str query),
   ( "use_rag", FormValue.str (jsBoolString useRag))] ++
    (match file with
     | some f => [ ( "file", FormValue.fileVal f)]
     | none => [])

/-! ## The orchestration core, modelled from the spec

The Router/Classifier, Retriever, Vector Memory Store, Aggregator and
Orchestrator are specified (spec sections 3, 4, 6, 7) but their
implementation is not among the checked-in sources; the definitions below
are built from the spec's words. -/

/-- A capability kind: one modality-specific skill. -/
inductive CapKind where
  | text
  | image
  | audio
deriving DecidableEq

/-- The declared media kind of a non-text payload. -/
inductive MediaKind where
  | image
  | audio
deriving DecidableEq

/-- Modelled from the spec: a Query (spec section 3) — raw text content, an
optional binary payload with declared media kind, an optional explicit task
hint, conversation history, and the retrieval toggle. -/
structure Query where
  text : String
  payload : Option MediaKind
  hint : Option CapKind
  history : List (String × String)
  useRag : Bool
deriving DecidableEq

/-- Modelled from the spec: a ClassificationResult (spec section 3) — the
selected capability kinds, a confidence, and whether retrieval is required. -/
structure ClassificationResult where
  kinds : List CapKind
  confidence : ℚ
  needsRetrieval : Bool
deriving DecidableEq

/-- Modelled from the spec: the Router/Classifier `classify` (spec 4.1),
which is not among the checked-in sources.  An explicit hint is honored
directly; otherwise kinds are inferred from the payload media type, with both
text and the payload kind selected when both are present; inconclusive input
falls back to the text kind with low confidence; retrieval follows the
caller's toggle. -/
def classify (q : Query) : ClassificationResult :=
  match q.hint with
  | some k => { kinds := [k], confidence := 9 / 10, needsRetrieval := q.useRag }
  | none =>
    let textKinds : List CapKind := if q.text = "" then [] else [CapKind.text]
    let payloadKinds : List CapKind :=
      match q.payload with
      | some MediaKind.image => [CapKind.image]
      | some MediaKind.audio => [CapKind.audio]
      | none => []
    let ks := textKinds ++ payloadKinds
    if ks.isEmpty then
      { kinds := [CapKind.text], confidence := 3 / 10, needsRetrieval := q.useRag }
    else
      { kinds := ks, confidence := 8 / 10, needsRetrieval := q.useRag }

/-- Modelled from the spec: a MemoryRecord of the Vector Memory Store (spec
section 3) — the original text and the capability kinds used (the embedding
vector lives in the external store and is not modelled). -/
structure MemoryRecord where
  content : String
  kindsUsed : List CapKind
deriving DecidableEq

/-- Modelled from the spec: one RetrievedContext entry (spec section 3) — a
content snippet, its source position in the store (insertion index), and a
relevance score. -/
structure RetrievedEntry where
  content : String
  index : ℕ
  score : ℚ
deriving DecidableEq

/-- Score every store record against the query text, tagging each with its
insertion index (the store is append-only, so position = insertion order). -/
def scoreStore (sim : String → String → ℚ) (queryText : String) :
    List MemoryRecord → ℕ → List RetrievedEntry
  | [], _ => []
  | r :: rs, i =>
    { content := r.content, index := i, score := sim queryText r.content } ::
      scoreStore sim queryText rs (i + 1)

/-- Ranking order on retrieved entries: higher score first, ties broken by
most-recent insertion (larger index) first. -/
def rankRel (a b : RetrievedEntry) : Prop :=
  b.score < a.score ∨ (a.score = b.score ∧ b.index ≤ a.index)

instance : DecidableRel rankRel := fun a b =>
  inferInstanceAs (Decidable (b.score < a.score ∨ (a.score = b.score ∧ b.index ≤ a.index)))

instance : IsTotal RetrievedEntry rankRel :=
  ⟨fun a b => by
    unfold rankRel
    rcases lt_trichotomy a.score b.score with h | h | h
    · exact Or.inr (Or.inl h)
    · rcases le_total b.index a.index with hi | hi
      · exact Or.inl (Or.inr ⟨h, hi⟩)
      · exact Or.inr (Or.inr ⟨h.symm, hi⟩)
    · exact Or.inl (Or.inl h)⟩

instance : IsTrans RetrievedEntry rankRel :=
  ⟨fun a b c hab hbc => by
    unfold rankRel at *
    rcases hab with h1 | ⟨h1, h1i⟩
    · rcases hbc with h2 | ⟨h2, _⟩
      · exact Or.inl (h2.trans h1)
      · exact Or.inl (h2 ▸ h1)
    · rcases hbc with h2 | ⟨h2, h2i⟩
      · exact Or.inl (h1 ▸ h2)
      · exact Or.inr ⟨h1.trans h2, h2i.trans h1i⟩⟩

/-- Modelled from the spec: the Retriever `retrieve` (spec 4.2), which is not
among the checked-in sources.  Every record is scored against the query text
(the external embedding/similarity backend is the `sim` parameter), matches
below the minimum-relevance floor are dropped, the rest are ranked by
descending score with ties broken by most-recent insertion, and the first
`topK` are returned; no-match is an empty sequence, never an error. -/
def retrieve (sim : String → String → ℚ) (store : List MemoryRecord)
    (queryText : String) (topK : ℕ) (minRelevance : ℚ) : List RetrievedEntry :=
  let scored := scoreStore sim queryText store 0
  let kept := scored.filter (fun e => minRelevance ≤ e.score)
  (List.insertionSort rankRel kept).take topK

/-- Modelled from the spec: a CapabilityResult (spec section 3) — the
capability kind, output text, success flag and error detail of one invoked
handler. -/
structure CapabilityResult where
  kind : CapKind
  output : String
  success : Bool
  error : Option String
deriving DecidableEq

/-- The outcome a concrete capability handler reports for one invocation
(spec 4.3): output text, success flag, error detail.  Handlers are external
collaborators, passed as a function parameter below. -/
structure HandlerOut where
  output : String
  success : Bool
  error : Option String
deriving DecidableEq

/-- Run one handler on the query and retrieved context, packaging its outcome
as the CapabilityResult for that kind. -/
def runHandler (h : CapKind → Query → List RetrievedEntry → HandlerOut)
    (q : Query) (ctx : List RetrievedEntry) (k : CapKind) : CapabilityResult :=
  let o := h k q ctx
  { kind := k, output := o.output, success := o.success, error := o.error }

/-- Modelled from the spec: the Dispatching step (spec 4.4 rule 3) — invoke
every selected capability handler; one handler's failure does not cancel the
others. -/
def dispatch (h : CapKind → Query → List RetrievedEntry → HandlerOut)
    (q : Query) (ctx : List RetrievedEntry) (kinds : List CapKind) :
    List CapabilityResult :=
  kinds.map (runHandler h q ctx)

/-- The fixed capability order used by the Aggregating step. -/
def capOrder : List CapKind := [CapKind.text, CapKind.image, CapKind.audio]

/-- The label of a capability kind, used for merged-section headers and
failure lines. -/
def capLabel : CapKind → String
  | CapKind.text => "Text"
  | CapKind.image => "Image"
  | CapKind.audio => "Audio"

/-- One labeled section of the merged response text. -/
def capSectionHeadOpen : String := "["

/-- Closing of a section label, followed by a newline before the output. -/
def capSectionHeadClose : String := "]\n"

/-- A succeeding handler's output under its capability label. -/
def capSectionText (r : CapabilityResult) : String :=
  capSectionHeadOpen ++ capLabel r.kind ++ capSectionHeadClose ++ r.output

/-- Error detail shown when a handler reports failure without a message. -/
def unknownErrorMsg : String := "unknown error"

/-- Separator between labels and details in a failure line. -/
def failureColon : String := ": "

/-- The failure line naming one failed handler and its error detail. -/
def failureLine (r : CapabilityResult) : String :=
  capLabel r.kind ++ failureColon ++ r.error.getD unknownErrorMsg

/-- Separator between sections of the merged response text. -/
def sectionSep : String := "\n\n"

/-- Separator between failure lines in the combined error summary. -/
def failSep : String := "; "

/-- Prefix of the combined error summary when every handler failed. -/
def allFailedMsg : String := "All capabilities failed: "

/-- Modelled from the spec: an AggregatedResponse (spec section 3) — success
flag, merged text, capability kinds used, sources, error detail. -/
structure AggregatedResponse where
  success : Bool
  response : String
  agentsUsed : List CapKind
  sources : List RetrievedEntry
  error : Option String
deriving DecidableEq

/-- The capability results arranged in the fixed order text, image, audio,
independent of completion order. -/
def orderedResults (results : List CapabilityResult) : List CapabilityResult :=
  capOrder.filterMap (fun k => results.find? (fun r => decide (r.kind = k)))

/-- Modelled from the spec: the Aggregating step (spec 4.4 rule 4), which is
not among the checked-in sources.  Results are arranged in the fixed
capability order; if all failed the response is unsuccessful with a combined
error summary naming each failure; if exactly one handler ran its output is
the response verbatim; otherwise the succeeding handlers' outputs are
concatenated under their capability labels, failed handlers skipped. -/
def aggregate (results : List CapabilityResult) (sources : List RetrievedEntry) :
    AggregatedResponse :=
  let ordered := orderedResults results
  let succs := ordered.filter (fun r => r.success)
  let fails := ordered.filter (fun r => !r.success)
  if succs.isEmpty then
    { success := false
      response := ""
      agentsUsed := []
      sources := sources
      error := some (allFailedMsg ++ joinSep failSep (fails.map failureLine)) }
  else if ordered.length = 1 then
    { success := true
      response := ((succs.head?).map CapabilityResult.output).getD ""
      agentsUsed := succs.map (fun r => r.kind)
      sources := sources
      error := none }
  else
    { success := true
      response := joinSep sectionSep (succs.map capSectionText)
      agentsUsed := succs.map (fun r => r.kind)
      sources := sources
      error := none }

/-- Newline between query and response in a persisted record. -/
def recordSep : String := "\n"

/-- Modelled from the spec: the MemoryRecord derived from the query and the
merged response during the Persisting step (spec 4.4 rule 5). -/
def mkMemoryRecord (q : Query) (resp : AggregatedResponse) : MemoryRecord :=
  { content := q.text ++ recordSep ++ resp.response, kindsUsed := resp.agentsUsed }

/-- The retrieved context the pipeline uses for a query: the Retrieving step
is skipped entirely when the classification disabled retrieval. -/
def contextFor (sim : String → String → ℚ) (store : List MemoryRecord)
    (topK : ℕ) (minRelevance : ℚ) (q : Query) : List RetrievedEntry :=
  if (classify q).needsRetrieval then retrieve sim store q.text topK minRelevance
  else []

/-- Modelled from the spec: the Orchestrator `process` (spec 4.4 and section
6), which is not among the checked-in sources.  Classify, optionally
retrieve, dispatch every selected handler, aggregate, and append one
MemoryRecord to the store exactly when the overall response succeeded.
Returns the response together with the post-request store. -/
def process (h : CapKind → Query → List RetrievedEntry → HandlerOut)
    (sim : String → String → ℚ) (topK : ℕ) (minRelevance : ℚ)
    (store : List MemoryRecord) (q : Query) :
    AggregatedResponse × List MemoryRecord :=
  let ctx := contextFor sim store topK minRelevance q
  let results := dispatch h q ctx (classify q).kinds
  let resp := aggregate results ctx
  (resp, if resp.success then store ++ [mkMemoryRecord q resp] else store)

/-! ## Concrete instances used to witness the theorems -/

/-- The empty string, as a named constant. -/
def emptyStr : String := ""

/-- A concrete failure detail for witness handlers. -/
def boomMsg : String := "model unavailable"

/-- A short concrete query text. -/
def hiMsg : String := "hi"

/-- The query text used in the concrete retrieval scenarios. -/
def queryStr : String := "query"

/-- A handler function on which every capability fails. -/
def hFail : CapKind → Query → List RetrievedEntry → HandlerOut :=
  fun _ _ _ => { output := emptyStr, success := false, error := some boomMsg }

/-- A handler function on which every capability succeeds, answering with its
label. -/
def hOk : CapKind → Query → List RetrievedEntry → HandlerOut :=
  fun k _ _ => { output := capLabel k, success := true, error := none }

/-- A trivial similarity function. -/
def simZero : String → String → ℚ := fun _ _ => 0

/-- A concrete query carrying both text and an image payload. -/
def qTI : Query :=
  { text := hiMsg, payload := some MediaKind.image, hint := none,
    history := [], useRag := false }

/-- A concrete query with no text, no payload and no hint. -/
def qEmpty : Query :=
  { text := emptyStr, payload := none, hint := none, history := [], useRag := true }

/-- Names of the five stored documents of the concrete retrieval scenario. -/
def docNames : List String := [ "doc1", "doc2", "doc3", "doc4", "doc5" ]

/-- A five-record store for the concrete retrieval scenario. -/
def store5 : List MemoryRecord :=
  docNames.map (fun c => { content := c, kindsUsed := [] })

/-- The rational 9/10, built as a normalized fraction so that comparisons
reduce definitionally. -/
def score9of10 : ℚ := ⟨9, 10, by norm_num, by norm_num⟩

/-- The rational 4/5. -/
def score4of5 : ℚ := ⟨4, 5, by norm_num, by norm_num⟩

/-- The rational 3/4. -/
def score3of4 : ℚ := ⟨3, 4, by norm_num, by norm_num⟩

/-- The rational 2/5. -/
def score2of5 : ℚ := ⟨2, 5, by norm_num, by norm_num⟩

/-- The rational 1/10. -/
def score1of10 : ℚ := ⟨1, 10, by norm_num, by norm_num⟩

/-- The rational 1/2. -/
def score1of2 : ℚ := ⟨1, 2, by norm_num, by norm_num⟩

/-- A similarity function giving the five stored documents the relevance
scores 0.9, 0.8, 0.75, 0.4, 0.1. -/
def sim5 (_queryText c : String) : ℚ :=
  if c = "doc1" then score9of10
  else if c = "doc2" then score4of5
  else if c = "doc3" then score3of4
  else if c = "doc4" then score2of5
  else score1of10

/-- A concrete PNG MIME type. -/
def pngType : String := "image/png"

/-- A file of exactly 50 MB (the default limit). -/
def fPng : FileData := { size := 52428800, type := pngType }

/-! ## Helper lemmas about the string utilities -/

theorem startsAt_iff (pat l : List Char) :
    startsAt pat l = true ↔ ∃ t, pat ++ t = l := by
  induction pat generalizing l with
  | nil => simp [startsAt]
  | cons p ps ih =>
    cases l with
    | nil => simp [startsAt]
    | cons c cs =>
      simp only [startsAt, Bool.and_eq_true, beq_iff_eq, ih, List.cons_append,
        List.cons.injEq]
      constructor
      · rintro ⟨rfl, t, rfl⟩
        exact ⟨t, rfl, rfl⟩
      · rintro ⟨t, rfl, rfl⟩
        exact ⟨rfl, t, rfl⟩

theorem hasSub_iff (l pat : List Char) :
    hasSub l pat = true ↔ ∃ s t, s ++ pat ++ t = l := by
  induction l with
  | nil =>
    simp only [hasSub, startsAt_iff]
    constructor
    · rintro ⟨t, ht⟩
      exact ⟨[], t, by simpa using ht⟩
    · rintro ⟨s, t, hst⟩
      rcases List.append_eq_nil.mp hst with ⟨h1, h2⟩
      rcases List.append_eq_nil.mp h1 with ⟨rfl, rfl⟩
      exact ⟨[], rfl⟩
  | cons c cs ih =>
    simp only [hasSub, Bool.or_eq_true, startsAt_iff, ih]
    constructor
    · rintro (⟨t, ht⟩ | ⟨s, t, rfl⟩)
      · exact ⟨[], t, by simpa using ht⟩
      · exact ⟨c :: s, t, rfl⟩
    · rintro ⟨s, t, hst⟩
      cases s with
      | nil => exact Or.inl ⟨t, by simpa using hst⟩
      | cons c2 s2 =>
        rw [List.cons_append, List.cons_append] at hst
        injection hst with h1 h2
        exact Or.inr ⟨s2, t, h2⟩

theorem strIncludes_iff (s pat : String) :
    strIncludes s pat = true ↔ SubstringOf pat s :=
  hasSub_iff s.data pat.data

theorem substringOf_append_left (pre : String) {x s : String}
    (h : SubstringOf x s) : SubstringOf x (pre ++ s) := by
  rcases h with ⟨l, r, hl⟩
  exact ⟨pre.data ++ l, r, by
    rw [String.data_append, ← hl]
    simp [List.append_assoc]⟩

theorem substringOf_refl (x : String) : SubstringOf x x :=
  ⟨[], [], by simp⟩

theorem substringOf_joinSep (sep : String) {parts : List String} {x : String}
    (hx : x ∈ parts) : SubstringOf x (joinSep sep parts) := by
  induction parts with
  | nil => cases hx
  | cons y ys ih =>
    cases ys with
    | nil =>
      rcases List.mem_singleton.mp hx with rfl
      exact substringOf_refl x
    | cons z zs =>
      rcases List.mem_cons.mp hx with rfl | hx2
      · refine ⟨[], (sep ++ joinSep sep (z :: zs)).data, ?_⟩
        show x.data ++ (sep ++ joinSep sep (z :: zs)).data =
          (joinSep sep (x :: z :: zs)).data
        rw [show joinSep sep (x :: z :: zs) = x ++ sep ++ joinSep sep (z :: zs) from rfl]
        simp [String.data_append, List.append_assoc]
      · have h2 := ih hx2
        have h3 := substringOf_append_left (y ++ sep) h2
        rcases h3 with ⟨l, r, hl⟩
        refine ⟨l, r, ?_⟩
        rw [hl]
        rfl

/-! ## Helper lemmas about retrieval -/

theorem scoreStore_mem {sim : String → String → ℚ} {queryText : String}
    {l : List MemoryRecord} {i : ℕ} {e : RetrievedEntry}
    (he : e ∈ scoreStore sim queryText l i) :
    ∃ r ∈ l, e.score = sim queryText r.content := by
  induction l generalizing i with
  | nil => cases he
  | cons r rs ih =>
    rcases List.mem_cons.mp he with rfl | he2
    · exact ⟨r, List.mem_cons_self .., rfl⟩
    · rcases ih he2 with ⟨r2, hr2, hs⟩
      exact ⟨r2, List.mem_cons_of_mem _ hr2, hs⟩

theorem scoreStore_index_ge {sim : String → String → ℚ} {queryText : String}
    {l : List MemoryRecord} {i : ℕ} {e : RetrievedEntry}
    (he : e ∈ scoreStore sim queryText l i) : i ≤ e.index := by
  induction l generalizing i with
  | nil => cases he
  | cons r rs ih =>
    rcases List.mem_cons.mp he with rfl | he2
    · exact le_refl i
    · exact Nat.le_of_succ_le (ih he2)

theorem scoreStore_index_pairwise (sim : String → String → ℚ) (queryText : String)
    (l : List MemoryRecord) (i : ℕ) :
    (scoreStore sim queryText l i).Pairwise (fun a b => a.index < b.index) := by
  induction l generalizing i with
  | nil => exact List.Pairwise.nil
  | cons r rs ih =>
    refine List.Pairwise.cons ?_ (ih (i + 1))
    intro e he
    exact Nat.lt_of_succ_le (scoreStore_index_ge he)

/-! ## Helper lemmas about classification and aggregation -/

theorem classify_kinds_cases (q : Query) :
    (classify q).kinds = [CapKind.text] ∨ (classify q).kinds = [CapKind.image] ∨
    (classify q).kinds = [CapKind.audio] ∨
    (classify q).kinds = [CapKind.text, CapKind.image] ∨
    (classify q).kinds = [CapKind.text, CapKind.audio] := by
  rcases hq : q.hint with _ | k
  · rcases hp : q.payload with _ | mk
    · by_cases ht : q.text = "" <;> simp [classify, hq, hp, ht]
    · rcases mk <;> by_cases ht : q.text = "" <;> simp [classify, hq, hp, ht]
  · rcases k <;> simp [classify, hq]

theorem runHandler_kind (h : CapKind → Query → List RetrievedEntry → HandlerOut)
    (q : Query) (ctx : List RetrievedEntry) (k : CapKind) :
    (runHandler h q ctx k).kind = k := rfl

theorem mem_capOrder (k : CapKind) : k ∈ capOrder := by
  rcases k <;> simp [capOrder]

theorem mem_orderedResults_iff
    (h : CapKind → Query → List RetrievedEntry → HandlerOut)
    (q : Query) (ctx : List RetrievedEntry) (kinds : List CapKind)
    (r : CapabilityResult) :
    r ∈ orderedResults (dispatch h q ctx kinds) ↔
      ∃ k ∈ kinds, r = runHandler h q ctx k := by
  constructor
  · intro hr
    rcases List.mem_filterMap.mp hr with ⟨k2, _, hfind⟩
    have hmem := List.mem_of_find?_eq_some hfind
    rcases List.mem_map.mp hmem with ⟨k3, hk3, hrun⟩
    exact ⟨k3, hk3, hrun.symm⟩
  · rintro ⟨k, hk, rfl⟩
    refine List.mem_filterMap.mpr ⟨k, mem_capOrder k, ?_⟩
    have hne : (dispatch h q ctx kinds).find?
        (fun r2 => decide (r2.kind = k)) ≠ none := by
      intro hnone
      have hall := List.find?_eq_none.mp hnone (runHandler h q ctx k)
        (List.mem_map.mpr ⟨k, hk, rfl⟩)
      simp [runHandler_kind] at hall
    rcases Option.ne_none_iff_exists.mp hne with ⟨r0, hr0⟩
    have hkind : r0.kind = k := by
      have := List.find?_some hr0.symm
      simpa using this
    have hmem0 := List.mem_of_find?_eq_some hr0.symm
    rcases List.mem_map.mp hmem0 with ⟨k4, _, hrun4⟩
    have hk4 : k4 = k := by rw [← hrun4] at hkind; simpa [runHandler_kind] using hkind
    subst hk4
    rw [hrun4]
    exact hr0.symm

theorem aggregate_success_iff (results : List CapabilityResult)
    (sources : List RetrievedEntry) :
    (aggregate results sources).success = true ↔
      ∃ r ∈ orderedResults results, r.success = true := by
  unfold aggregate
  by_cases hemp : ((orderedResults results).filter (fun r => r.success)).isEmpty
  · rw [if_pos hemp]
    have hnil := List.isEmpty_iff.mp hemp
    have hall := List.filter_eq_nil_iff.mp hnil
    simp only [Bool.false_eq_true, false_iff]
    rintro ⟨r, hr, hs⟩
    exact (hall r hr) hs
  · rw [if_neg hemp]
    have hne : (orderedResults results).filter (fun r => r.success) ≠ [] := by
      intro hnil
      exact hemp (List.isEmpty_iff.mpr hnil)
    rcases List.exists_mem_of_ne_nil _ hne with ⟨r, hr⟩
    have hr2 := List.mem_filter.mp hr
    have hgoal : ∃ r ∈ orderedResults results, r.success = true :=
      ⟨r, hr2.1, hr2.2⟩
    by_cases hlen : (orderedResults results).length = 1 <;>
      simp [hlen, hgoal]

theorem aggregate_all_fail (results : List CapabilityResult)
    (sources : List RetrievedEntry)
    (H : ∀ r ∈ orderedResults results, r.success = false) :
    aggregate results sources =
      { success := false, response := "", agentsUsed := [], sources := sources,
        error := some (allFailedMsg ++
          joinSep failSep ((orderedResults results).map failureLine)) } := by
  unfold aggregate
  have hnil : (orderedResults results).filter (fun r => r.success) = [] :=
    List.filter_eq_nil_iff.mpr (fun r hr => by simp [H r hr])
  have hself : (orderedResults results).filter (fun r => !r.success) =
      orderedResults results :=
    List.filter_eq_self.mpr (fun r hr => by simp [H r hr])
  rw [if_pos (List.isEmpty_iff.mpr hnil), hself]

/-! ## Claim theorems -/

/-- C5: `classify` is total: it is a total function returning a
ClassificationResult for every query, the selected capability kinds are never
empty, and classification of inconclusive input (no hint, empty text, no
payload) defaults to the text capability kind. -/
theorem classify_total_nonempty (q : Query) :
    (classify q).kinds ≠ [] ∧
    (q.hint = none → q.text = "" → q.payload = none →
      (classify q).kinds = [CapKind.text]) := by
  constructor
  · rcases classify_kinds_cases q with h | h | h | h | h <;> simp [h]
  · intro h1 h2 h3
    simp [classify, h1, h2, h3]

/-- Witness for C5 at a concrete inconclusive query: the selected kinds are
non-empty and default to the text kind. -/
theorem classify_total_nonempty_witness :
    (classify qEmpty).kinds ≠ [] ∧ (classify qEmpty).kinds = [CapKind.text] :=
  ⟨(classify_total_nonempty qEmpty).1,
    (classify_total_nonempty qEmpty).2 rfl rfl rfl⟩

/-- C4: a MemoryRecord is appended to the store if and only if the overall
AggregatedResponse succeeded; when `success = false` the store is returned
unchanged. -/
theorem process_memory_write_iff
    (h : CapKind → Query → List RetrievedEntry → HandlerOut)
    (sim : String → String → ℚ) (topK : ℕ) (minRelevance : ℚ)
    (store : List MemoryRecord) (q : Query) :
    ((process h sim topK minRelevance store q).1.success = true →
      (process h sim topK minRelevance store q).2 =
        store ++ [mkMemoryRecord q (process h sim topK minRelevance store q).1]) ∧
    ((process h sim topK minRelevance store q).1.success = false →
      (process h sim topK minRelevance store q).2 = store) ∧
    ((process h sim topK minRelevance store q).1.success = true ↔
      (process h sim topK minRelevance store q).2 ≠ store) := by
  have key : (process h sim topK minRelevance store q).2 =
      if (process h sim topK minRelevance store q).1.success = true then
        store ++ [mkMemoryRecord q (process h sim topK minRelevance store q).1]
      else store := rfl
  cases hs : (process h sim topK minRelevance store q).1.success with
  | false =>
    rw [hs] at key
    simp only [Bool.false_eq_true, if_false] at key
    refine ⟨fun hcon => by simp at hcon, fun _ => key, ?_⟩
    rw [key]
    simp
  | true =>
    rw [hs] at key
    simp only [if_true] at key
    refine ⟨fun _ => key, fun hcon => by simp at hcon, ?_⟩
    rw [key]
    simp only [true_iff]
    intro hcon
    have hlen := congrArg List.length hcon
    simp at hlen

/-- Witness for C4 at a concrete successful request: the post-request store
is the old store with one appended record, and on a concrete all-failing
request the store is unchanged. -/
theorem process_memory_write_iff_witness :
    (process hOk simZero 0 0 [] qTI).2 =
      [] ++ [mkMemoryRecord qTI (process hOk simZero 0 0 [] qTI).1] ∧
    (process hFail simZero 0 0 [] qTI).2 = [] :=
  ⟨(process_memory_write_iff hOk simZero 0 0 [] qTI).1 (by decide),
    (process_memory_write_iff hFail simZero 0 0 [] qTI).2.1 (by decide)⟩

/-- C6: retrieval never fails for lack of matches: against an empty store it
returns the empty sequence, and when every stored record scores below the
minimum-relevance floor it returns the empty sequence, in both cases as a
normal value of the result type (the retriever has no error outcome). -/
theorem retrieve_no_match_empty (sim : String → String → ℚ) (queryText : String)
    (topK : ℕ) (minRelevance : ℚ) (store : List MemoryRecord) :
    retrieve sim [] queryText topK minRelevance = [] ∧
    ((∀ r ∈ store, sim queryText r.content < minRelevance) →
      retrieve sim store queryText topK minRelevance = []) := by
  constructor
  · simp [retrieve, scoreStore, List.insertionSort]
  · intro H
    simp only [retrieve]
    have hnil : (scoreStore sim queryText store 0).filter
        (fun e => minRelevance ≤ e.score) = [] := by
      refine List.filter_eq_nil_iff.mpr ?_
      intro e he
      rcases scoreStore_mem he with ⟨r, hr, hsc⟩
      simp only [decide_eq_true_eq, hsc]
      exact not_le.mpr (H r hr)
    rw [hnil]
    simp [List.insertionSort]

/-- Witness for C6: a concrete store whose five records all score below a
floor of 1 yields the empty retrieval result. -/
theorem retrieve_no_match_empty_witness :
    retrieve simZero store5 queryStr 3 1 = [] :=
  (retrieve_no_match_empty simZero queryStr 3 1 store5).2 (by decide)

/-- C3: on a store of five records scoring 0.9, 0.8, 0.75, 0.4, 0.1, a
retrieval with `top_k = 3` and floor 0.5 returns exactly the records scoring
0.9, 0.8, 0.75, in that order. -/
theorem retrieve_topk_example :
    retrieve sim5 store5 queryStr 3 (1 / 2) =
      [{ content := "doc1", index := 0, score := 9 / 10 },
       { content := "doc2", index := 1, score := 4 / 5 },
       { content := "doc3", index := 2, score := 3 / 4 }] := by
  have e1 : (9 / 10 : ℚ) = score9of10 := by
    rw [score9of10, Rat.mk'_eq_divInt, Rat.divInt_eq_div]
    norm_num
  have e2 : (4 / 5 : ℚ) = score4of5 := by
    rw [score4of5, Rat.mk'_eq_divInt, Rat.divInt_eq_div]
    norm_num
  have e3 : (3 / 4 : ℚ) = score3of4 := by
    rw [score3of4, Rat.mk'_eq_divInt, Rat.divInt_eq_div]
    norm_num
  have e4 : (1 / 2 : ℚ) = score1of2 := by
    rw [score1of2, Rat.mk'_eq_divInt, Rat.divInt_eq_div]
    norm_num
  rw [e1, e2, e3, e4]
  decide

/-- C7: every retrieval result is sorted by non-increasing relevance score,
and entries of equal score appear most-recent insertion (larger store index)
first. -/
theorem retrieve_sorted (sim : String → String → ℚ) (store : List MemoryRecord)
    (queryText : String) (topK : ℕ) (minRelevance : ℚ) :
    (retrieve sim store queryText topK minRelevance).Pairwise
      (fun a b => b.score ≤ a.score ∧ (a.score = b.score → b.index < a.index)) := by
  have hidx := scoreStore_index_pairwise sim queryText store 0
  have hne : (scoreStore sim queryText store 0).Pairwise
      (fun a b => a.index ≠ b.index) :=
    hidx.imp (fun hab => Nat.ne_of_lt hab)
  have hkept : ((scoreStore sim queryText store 0).filter
      (fun e => minRelevance ≤ e.score)).Pairwise (fun a b => a.index ≠ b.index) :=
    hne.sublist (List.filter_sublist _)
  have hsorted : (List.insertionSort rankRel
      ((scoreStore sim queryText store 0).filter
        (fun e => minRelevance ≤ e.score))).Pairwise rankRel :=
    List.sorted_insertionSort rankRel _
  have hperm := List.perm_insertionSort rankRel
    ((scoreStore sim queryText store 0).filter (fun e => minRelevance ≤ e.score))
  have hne2 : (List.insertionSort rankRel
      ((scoreStore sim queryText store 0).filter
        (fun e => minRelevance ≤ e.score))).Pairwise (fun a b => a.index ≠ b.index) :=
    (hperm.pairwise_iff (fun hab => hab.symm)).mpr hkept
  have hboth := hsorted.and hne2
  have himp : (List.insertionSort rankRel
      ((scoreStore sim queryText store 0).filter
        (fun e => minRelevance ≤ e.score))).Pairwise
      (fun a b => b.score ≤ a.score ∧ (a.score = b.score → b.index < a.index)) := by
    refine hboth.imp ?_
    rintro a b ⟨hr, hi⟩
    rcases hr with hlt | ⟨heq, hle⟩
    · exact ⟨le_of_lt hlt, fun hcon => absurd (hcon ▸ hlt) (lt_irrefl _)⟩
    · exact ⟨le_of_eq heq.symm, fun _ => lt_of_le_of_ne hle (Ne.symm hi)⟩
  exact himp.sublist (List.take_sublist _ _)

/-- C1: for every processed query the AggregatedResponse succeeds iff at
least one invoked capability handler succeeded; when every dispatched handler
fails the response fails and its error detail names each failed handler's
failure. -/
theorem process_success_iff
    (h : CapKind → Query → List RetrievedEntry → HandlerOut)
    (sim : String → String → ℚ) (topK : ℕ) (minRelevance : ℚ)
    (store : List MemoryRecord) (q : Query) :
    ((process h sim topK minRelevance store q).1.success = true ↔
      ∃ k ∈ (classify q).kinds,
        (h k q (contextFor sim store topK minRelevance q)).success = true) ∧
    ((∀ k ∈ (classify q).kinds,
        (h k q (contextFor sim store topK minRelevance q)).success = false) →
      (process h sim topK minRelevance store q).1.success = false ∧
      ∃ msg, (process h sim topK minRelevance store q).1.error = some msg ∧
        ∀ k ∈ (classify q).kinds,
          SubstringOf
            (failureLine (runHandler h q (contextFor sim store topK minRelevance q) k))
            msg) := by
  have hctx : (process h sim topK minRelevance store q).1 =
      aggregate
        (dispatch h q (contextFor sim store topK minRelevance q) (classify q).kinds)
        (contextFor sim store topK minRelevance q) := rfl
  constructor
  · rw [hctx, aggregate_success_iff]
    constructor
    · rintro ⟨r, hr, hs⟩
      rcases (mem_orderedResults_iff h q _ _ r).mp hr with ⟨k, hk, rfl⟩
      exact ⟨k, hk, hs⟩
    · rintro ⟨k, hk, hs⟩
      exact ⟨runHandler h q (contextFor sim store topK minRelevance q) k,
        (mem_orderedResults_iff h q _ _ _).mpr ⟨k, hk, rfl⟩, hs⟩
  · intro H
    have hallfail : ∀ r ∈ orderedResults
        (dispatch h q (contextFor sim store topK minRelevance q) (classify q).kinds),
        r.success = false := by
      intro r hr
      rcases (mem_orderedResults_iff h q _ _ r).mp hr with ⟨k, hk, rfl⟩
      exact H k hk
    have heq := aggregate_all_fail
      (dispatch h q (contextFor sim store topK minRelevance q) (classify q).kinds)
      (contextFor sim store topK minRelevance q) hallfail
    refine ⟨by rw [hctx, heq], ?_⟩
    refine ⟨allFailedMsg ++ joinSep failSep
      ((orderedResults
        (dispatch h q (contextFor sim store topK minRelevance q)
          (classify q).kinds)).map failureLine),
      by rw [hctx, heq], ?_⟩
    intro k hk
    apply substringOf_append_left
    apply substringOf_joinSep
    exact List.mem_map.mpr
      ⟨runHandler h q (contextFor sim store topK minRelevance q) k,
        (mem_orderedResults_iff h q _ _ _).mpr ⟨k, hk, rfl⟩, rfl⟩

/-- Witness for C1 at a concrete query on which every handler fails: the
response fails and the error detail names each handler's failure. -/
theorem process_success_iff_witness :
    (process hFail simZero 0 0 [] qTI).1.success = false ∧
    ∃ msg, (process hFail simZero 0 0 [] qTI).1.error = some msg ∧
      ∀ k ∈ (classify qTI).kinds,
        SubstringOf (failureLine (runHandler hFail qTI (contextFor simZero [] 0 0 qTI) k))
          msg :=
  (process_success_iff hFail simZero 0 0 [] qTI).2 (by decide)

/-- C2: when classification selects more than one capability kind, the merged
text is the concatenation of one labeled section per succeeding handler in
the fixed capability order text, image, audio, skipping failed handlers (in
the sequential model the completion order cannot vary, and the merge order is
fixed by `capOrder` alone); when exactly one handler ran and succeeded the
merged text is its output verbatim; and a hint-free query with text and an
image payload selects exactly the text and image kinds. -/
theorem process_merge_order
    (h : CapKind → Query → List RetrievedEntry → HandlerOut)
    (sim : String → String → ℚ) (topK : ℕ) (minRelevance : ℚ)
    (store : List MemoryRecord) (q : Query) :
    (2 ≤ (classify q).kinds.length →
      (process h sim topK minRelevance store q).1.response =
        joinSep sectionSep
          ((capOrder.filter (fun k => decide (k ∈ (classify q).kinds) &&
              (h k q (contextFor sim store topK minRelevance q)).success)).map
            (fun k => capSectionText
              (runHandler h q (contextFor sim store topK minRelevance q) k)))) ∧
    (∀ k, (classify q).kinds = [k] →
      (h k q (contextFor sim store topK minRelevance q)).success = true →
      (process h sim topK minRelevance store q).1.response =
        (h k q (contextFor sim store topK minRelevance q)).output) ∧
    (q.hint = none → q.text ≠ "" → q.payload = some MediaKind.image →
      (classify q).kinds = [CapKind.text, CapKind.image]) := by
  have hctx : (process h sim topK minRelevance store q).1 =
      aggregate
        (dispatch h q (contextFor sim store topK minRelevance q) (classify q).kinds)
        (contextFor sim store topK minRelevance q) := rfl
  refine ⟨?_, ?_, ?_⟩
  · intro hlen
    rw [hctx]
    rcases classify_kinds_cases q with hk | hk | hk | hk | hk
    · rw [hk] at hlen
      simp at hlen
    · rw [hk] at hlen
      simp at hlen
    · rw [hk] at hlen
      simp at hlen
    · rw [hk]
      cases hst : (h CapKind.text q (contextFor sim store topK minRelevance q)).success <;>
        cases hso : (h CapKind.image q (contextFor sim store topK minRelevance q)).success <;>
        simp [aggregate, orderedResults, dispatch, runHandler, capOrder,
          List.find?, List.filter, hst, hso, joinSep, capSectionText]
    · rw [hk]
      cases hst : (h CapKind.text q (contextFor sim store topK minRelevance q)).success <;>
        cases hsa : (h CapKind.audio q (contextFor sim store topK minRelevance q)).success <;>
        simp [aggregate, orderedResults, dispatch, runHandler, capOrder,
          List.find?, List.filter, hst, hsa, joinSep, capSectionText]
  · intro k hk hsucc
    rw [hctx, hk]
    rcases k <;>
      simp [aggregate, orderedResults, dispatch, runHandler, capOrder,
        List.find?, List.filter, hsucc]
  · intro h1 h2 h3
    simp [classify, h1, h2, h3]

/-- Witness for C2 at a concrete query with text and an image payload whose
two handlers both succeed: two kinds are selected and the merged text is the
labeled concatenation in fixed order. -/
theorem process_merge_order_witness :
    2 ≤ (classify qTI).kinds.length ∧
    (process hOk simZero 0 0 [] qTI).1.response =
      joinSep sectionSep
        ((capOrder.filter (fun k => decide (k ∈ (classify qTI).kinds) &&
            (hOk k qTI (contextFor simZero [] 0 0 qTI)).success)).map
          (fun k => capSectionText
            (runHandler hOk qTI (contextFor simZero [] 0 0 qTI) k))) :=
  ⟨by decide, (process_merge_order hOk simZero 0 0 [] qTI).1 (by decide)⟩

/-- C8: calling `processMultiModal` without the `useRag` argument sends the
form field `use_rag` as the string `"true"` (retrieval on by default),
supplying `useRag = false` sends `"false"`, and the `QueryRequest` type
leaves `use_rag` (and `history`) optional. -/
theorem processMultiModal_useRag_default (q : String) (f : Option FileData) :
    (processMultiModal q f).lookup "use_rag" = some (FormValue.str "true") ∧
    (processMultiModal q f false).lookup "use_rag" = some (FormValue.str "false") ∧
    ∃ r : QueryRequest, r.query = q ∧ r.use_rag = none ∧ r.history = none := by
  refine ⟨?_, ?_, ⟨{ query := q }, rfl, rfl, rfl⟩⟩
  · rfl
  · rfl

/-- C9: `validateFile` rejects with the size-limit error exactly when
`file.size` strictly exceeds `maxSizeMB * 1024 * 1024` (so a file of exactly
the limit is accepted, despite the message wording); below the limit it
rejects with the type error exactly when `allowedTypes` is non-empty and no
allowed type occurs as a substring of `file.type`; otherwise it returns
valid with no error. -/
theorem validateFile_spec (f : FileData) (maxSizeMB : ℕ)
    (allowedTypes : List String) :
    (maxSizeMB * 1024 * 1024 < f.size →
      validateFile f maxSizeMB allowedTypes =
        { valid := false, error := some (sizeErrorMsg maxSizeMB) }) ∧
    (f.size ≤ maxSizeMB * 1024 * 1024 →
      (validateFile f maxSizeMB allowedTypes =
          { valid := false, error := some (typeErrorMsg allowedTypes) } ↔
        allowedTypes ≠ [] ∧ ∀ t ∈ allowedTypes, ¬ SubstringOf t f.type)) ∧
    (f.size ≤ maxSizeMB * 1024 * 1024 →
      (validateFile f maxSizeMB allowedTypes = { valid := true, error := none } ↔
        allowedTypes = [] ∨ ∃ t ∈ allowedTypes, SubstringOf t f.type)) ∧
    (f.size = maxSizeMB * 1024 * 1024 → allowedTypes = [] →
      (validateFile f maxSizeMB allowedTypes).valid = true) := by
  refine ⟨?_, ?_, ?_, ?_⟩
  · intro hlt
    simp only [validateFile]
    rw [if_pos hlt]
  · intro hle
    simp only [validateFile]
    rw [if_neg (not_lt.mpr hle)]
    by_cases ha : allowedTypes = []
    · subst ha
      simp [SubstringOf]
    · rw [if_pos (List.length_pos.mpr ha)]
      by_cases hany : allowedTypes.any (fun t => strIncludes f.type t) = true
      · rw [if_pos hany]
        constructor
        · intro he
          exact absurd he (by simp)
        · rintro ⟨_, hall⟩
          rcases List.any_eq_true.mp hany with ⟨t, ht, hinc⟩
          exact absurd ((strIncludes_iff f.type t).mp hinc) (hall t ht)
      · rw [if_neg hany]
        constructor
        · intro _
          refine ⟨ha, fun t ht hs => hany ?_⟩
          exact List.any_eq_true.mpr ⟨t, ht, (strIncludes_iff f.type t).mpr hs⟩
        · intro _
          rfl
  · intro hle
    simp only [validateFile]
    rw [if_neg (not_lt.mpr hle)]
    by_cases ha : allowedTypes = []
    · subst ha
      simp
    · rw [if_pos (List.length_pos.mpr ha)]
      by_cases hany : allowedTypes.any (fun t => strIncludes f.type t) = true
      · rw [if_pos hany]
        simp only [true_iff]
        rcases List.any_eq_true.mp hany with ⟨t, ht, hinc⟩
        exact Or.inr ⟨t, ht, (strIncludes_iff f.type t).mp hinc⟩
      · rw [if_neg hany]
        constructor
        · intro he
          exact absurd he (by simp)
        · rintro (rfl | ⟨t, ht, hs⟩)
          · exact absurd rfl ha
          · exact absurd (List.any_eq_true.mpr
              ⟨t, ht, (strIncludes_iff f.type t).mpr hs⟩) hany
  · intro heq ha
    subst ha
    simp only [validateFile]
    rw [if_neg (by rw [heq]; exact lt_irrefl _)]
    simp

/-- Witness for C9: a 50 MB file (exactly the default limit) with no type
restriction is accepted. -/
theorem validateFile_spec_witness :
    (validateFile fPng 50 []).valid = true :=
  (validateFile_spec fPng 50 []).2.2.2 (by decide) rfl

/-- C10: `formatFileSize 0` is the string `"0 Bytes"`, and for every byte
count from 1 up to (but excluding) 1024^4 the computed unit index
`⌊log bytes / log 1024⌋` stays within the four-element unit array, so the
result is the rounded value followed by one of the four units. -/
theorem formatFileSize_safe :
    formatFileSize 0 = "0 Bytes" ∧
    ∀ bytes : ℕ, 1 ≤ bytes → bytes < 1024 ^ 4 →
      Nat.log 1024 bytes < 4 ∧
      ∃ u ∈ sizeUnits,
        formatFileSize bytes =
          decimal2String (jsRound ((bytes : ℚ) / (1024 : ℚ) ^ Nat.log 1024 bytes * 100))
            ++ unitSpace ++ u := by
  refine ⟨rfl, ?_⟩
  intro bytes h1 h2
  have hne : bytes ≠ 0 := by omega
  have hlog : Nat.log 1024 bytes < 4 := Nat.log_lt_of_lt_pow hne h2
  refine ⟨hlog, sizeUnits.getD (Nat.log 1024 bytes) undefinedStr, ?_, ?_⟩
  · have h4 : Nat.log 1024 bytes = 0 ∨ Nat.log 1024 bytes = 1 ∨
        Nat.log 1024 bytes = 2 ∨ Nat.log 1024 bytes = 3 := by omega
    rcases h4 with h | h | h | h <;> rw [h] <;> simp [sizeUnits]
  · simp only [formatFileSize, if_neg hne]

/-- Witness for C10 at 1536 bytes: the unit index is in bounds and the
formatted string uses a real unit. -/
theorem formatFileSize_safe_witness :
    Nat.log 1024 1536 < 4 ∧
    ∃ u ∈ sizeUnits,
      formatFileSize 1536 =
        decimal2String (jsRound ((1536 : ℚ) / (1024 : ℚ) ^ Nat.log 1024 1536 * 100))
          ++ unitSpace ++ u :=
  formatFileSize_safe.2 1536 (by decide) (by decide)

end Aura
